import Mathlib

/-!
Shallow embedding of the ampy core (wanduow/ampy) for specification checking.

Embedded source files:
* libampy/streammanager.py : class StreamManager (hierarchical stream index)
* libampy/nntsc.py         : class NNTSCConnection (protocol client)
* ampy/ampy.py             : Ampy.get_recent_data / Ampy.get_historic_data
                             (query orchestration; external collaborators are
                             passed in as function parameters)

Conventions: Python dictionaries become association lists (first occurrence
wins on lookup, in-place replacement on update, new keys appended at the end,
matching CPython insertion-ordered dict semantics).  Python None-or-value
returns become Option.  An uncaught Python exception is modelled by an
explicit exception outcome where one is reachable.
-/

namespace Ampy

/-- Property values stored as keys of the stream hierarchy.  The repository
inserts strings (and, for some collections, booleans: see the true/false
coercion in StreamManager.find_selections); both are modelled. -/
inductive Val where
  | s (v : String)
  | b (v : Bool)
deriving DecidableEq, Repr

/-- An entry of a leaf list of the hierarchy: add_stream appends the bare
stream id when storage is None, and an (id, storage) pair otherwise. -/
inductive SEntry where
  | bare (id : Nat)
  | withStorage (id : Nat) (storage : String)
deriving DecidableEq, Repr

/-- The nested-dictionary stream hierarchy: inner levels are dictionaries
keyed by property values, the deepest level is a list of stream entries. -/
inductive STree where
  | leaf (entries : List SEntry)
  | node (children : List (Val × STree))

/-- Dictionary lookup on the children of a hierarchy level (first match). -/
def lookupVal : List (Val × STree) → Val → Option STree
  | [], _ => none
  | (k, t) :: r, v => if k = v then some t else lookupVal r v

/-- Dictionary update on the children of a hierarchy level: replaces the
first binding of the key in place, or appends a new binding at the end
(CPython dict assignment semantics). -/
def updVal : List (Val × STree) → Val → STree → List (Val × STree)
  | [], v, t => [(v, t)]
  | (k, u) :: r, v, t => if k = v then (v, t) :: r else (k, u) :: updVal r v t

/-- A properties dictionary handed to add_stream / find_streams. -/
def Props := List (String × Val)

/-- Lookup in a properties dictionary (Python `properties[k]` / `k in properties`). -/
def plookup : List (String × Val) → String → Option Val
  | [], _ => none
  | (k, v) :: r, key => if k = key then some v else plookup r key

/-- Entry appended to a leaf list by add_stream, depending on the storage
argument. -/
def mkEntry (streamid : Nat) (storage : Option String) : SEntry :=
  match storage with
  | some st => .withStorage streamid st
  | none => .bare streamid

/-- Recursive core of StreamManager.add_stream: walks the keylist, creating
missing levels (a list when the current key equals the LAST key of the
original keylist, a dictionary otherwise, exactly as the source compares
`k == self.keylist[-1]`), and appends the new entry to the leaf it reaches.
Returns the leaf list that was appended to (None when some keylist key is
missing from the properties, in which case the levels already created for
the preceding keys are kept), together with the possibly-extended tree.
The two shape-mismatch arms return failure without mutation; they are
unreachable for trees built from a duplicate-free keylist (the source would
raise a TypeError there). -/
def addAux (entry : SEntry) (props : List (String × Val)) (lastKey : Option String) :
    List String → STree → Option (List SEntry) × STree
  | [], t =>
    match t with
    | .leaf es => (some (es ++ [entry]), .leaf (es ++ [entry]))
    | .node cs => (none, .node cs)
  | k :: rest, t =>
    match t with
    | .leaf es => (none, .leaf es)
    | .node cs =>
      match plookup props k with
      | none => (none, .node cs)
      | some val =>
        let child :=
          match lookupVal cs val with
          | some c => c
          | none => if lastKey = some k then .leaf [] else .node []
        let res := addAux entry props lastKey rest child
        (res.1, .node (updVal cs val res.2))

/-- State of one StreamManager: the ordered keylist, the nested hierarchy
and the reverse streamid -> (property tuple, storage) dictionary. -/
structure StreamManager where
  keylist : List String
  basedict : STree
  streams : List (Nat × (List Val × Option String))

/-- Fresh StreamManager for a keylist (the source constructor). -/
def StreamManager.mk0 (keylist : List String) : StreamManager :=
  { keylist := keylist, basedict := .node [], streams := [] }

/-- Reverse-map update (Python `self.streams[streamid] = key, storage`). -/
def supdate : List (Nat × (List Val × Option String)) → Nat → List Val × Option String →
    List (Nat × (List Val × Option String))
  | [], sid, v => [(sid, v)]
  | (k, u) :: r, sid, v => if k = sid then (sid, v) :: r else (k, u) :: supdate r sid v

/-- Reverse-map lookup (Python `self.streams[streamid]`). -/
def slookup : List (Nat × (List Val × Option String)) → Nat → Option (List Val × Option String)
  | [], _ => none
  | (k, u) :: r, sid => if k = sid then some u else slookup r sid

/-- StreamManager.add_stream.  Returns the leaf list the stream was appended
to on success and None on failure, along with the updated manager.  On
success the reverse map records the per-level property values in keylist
order; `filterMap` below equals the value list the source collects in its
loop, because success means every keylist key is present in properties. -/
def add_stream (mgr : StreamManager) (streamid : Nat) (storage : Option String)
    (props : List (String × Val)) : Option (List SEntry) × StreamManager :=
  let res := addAux (mkEntry streamid storage) props mgr.keylist.getLast? mgr.keylist mgr.basedict
  match res.1 with
  | some es =>
    let key := mgr.keylist.filterMap (fun k => plookup props k)
    (some es, { mgr with basedict := res.2, streams := supdate mgr.streams streamid (key, storage) })
  | none => (none, { mgr with basedict := res.2 })

/-- StreamManager.find_stream_properties: reverse lookup of the property
dictionary for a stream id. -/
def find_stream_properties (mgr : StreamManager) (streamid : Nat) :
    Option (List (String × Val)) :=
  match slookup mgr.streams streamid with
  | none => none
  | some (key, _) => some (mgr.keylist.zip key)

/-- Recursive core of StreamManager.find_streams: a key present in the
properties is matched by exact (case-sensitive) dictionary lookup, a key
absent from the properties wildcards over every branch of the level, and
the leaf list is appended to the accumulated result.  The two
shape-mismatch arms are unreachable for trees built from a duplicate-free
keylist. -/
def findAux (props : List (String × Val)) : List String → STree → List SEntry
  | [], t =>
    match t with
    | .leaf es => es
    | .node _ => []
  | k :: rest, t =>
    match t with
    | .leaf _ => []
    | .node cs =>
      match plookup props k with
      | some val =>
        match lookupVal cs val with
        | none => []
        | some sub => findAux props rest sub
      | none => cs.foldl (fun acc c => acc ++ findAux props rest c.2) []

/-- StreamManager.find_streams (entry point, empty accumulator). -/
def find_streams (mgr : StreamManager) (props : List (String × Val)) : List SEntry :=
  findAux props mgr.keylist mgr.basedict

/-- Values at one level of the hierarchy (Python `list(curr.keys())`); the
leaf arm is unreachable for schema-shaped trees. -/
def childVals : STree → List Val
  | .leaf _ => []
  | .node cs => cs.map (fun c => c.1)

/-- Substring test on character lists: does the second list occur
contiguously inside the first?  This is the semantics of the source's
`re.search(".*(" + re.escape(term) + ").*", x)`. -/
def startsWithChars : List Char → List Char → Bool
  | _, [] => true
  | [], _ :: _ => false
  | a :: as, b :: bs => a = b && startsWithChars as bs

/-- Substring occurrence anywhere in the list. -/
def hasSubChars : List Char → List Char → Bool
  | hay, needle =>
    match hay with
    | [] => startsWithChars [] needle
    | _ :: rest => startsWithChars hay needle || hasSubChars rest needle

/-- String containment used by the find_selections term filter. -/
def strContains (hay term : String) : Bool :=
  hasSubChars hay.data term.data

/-- Term filter applied to one value.  An empty term matches everything
(the source builds no pattern).  A non-empty term matches a string value
that contains the term as a substring; applying it to a boolean value is
unreachable in the claims considered here (the source would raise a
TypeError inside re.search). -/
def valMatches (term : String) : Val → Bool
  | .s v => if term = "" then true else strContains v term
  | .b _ => if term = "" then true else false

/-- Test for string-valued hierarchy values (find_selections pagination with
a non-empty term raises a TypeError in the source on any other kind of
value, so claims about term filtering are scoped to string values). -/
def Val.isStr : Val → Bool
  | .s _ => true
  | .b _ => false

/-- Lexicographic comparison of character lists by code point (the order
Python uses to sort strings). -/
def charListLe : List Char → List Char → Bool
  | [], _ => true
  | _ :: _, [] => false
  | a :: as, b :: bs => if a = b then charListLe as bs else decide (a < b)

/-- Lexicographic string comparison by code point. -/
def strLe (x y : String) : Bool :=
  charListLe x.data y.data

/-- Total comparator on hierarchy values used to model `result.sort()`:
booleans sort as in Python (False < True), strings sort lexicographically
(Python code-point order).  Comparison across the two kinds would raise a
TypeError in Python 3 and is unreachable in the claims considered here; the
comparator totalises it with booleans first. -/
def Val.ble : Val → Val → Bool
  | .b x, .b y => !x || y
  | .b _, .s _ => true
  | .s _, .b _ => false
  | .s x, .s y => strLe x y

/-- The sorting order as a relation. -/
def Val.le (a b : Val) : Prop :=
  Val.ble a b = true

instance : DecidableRel Val.le := fun a b =>
  inferInstanceAs (Decidable (Val.ble a b = true))

instance : IsTotal Val Val.le where
  total a b := by
    have hl : ∀ as bs : List Char, charListLe as bs = true ∨ charListLe bs as = true := by
      intro as
      induction as with
      | nil => intro bs; exact Or.inl rfl
      | cons a as2 ih =>
        intro bs
        cases bs with
        | nil => exact Or.inr rfl
        | cons b bs2 =>
          by_cases hab : a = b
          · subst hab
            rcases ih bs2 with h | h
            · exact Or.inl (by simp [charListLe, h])
            · exact Or.inr (by simp [charListLe, h])
          · rcases lt_or_gt_of_ne hab with h | h
            · refine Or.inl ?_
              simp only [charListLe, if_neg hab]
              exact decide_eq_true h
            · refine Or.inr ?_
              have hba : ¬b = a := fun e => hab e.symm
              simp only [charListLe, if_neg hba]
              exact decide_eq_true h
    cases a with
    | s x =>
      cases b with
      | s y => exact hl x.data y.data
      | b y => exact Or.inr rfl
    | b x =>
      cases b with
      | s y => exact Or.inl rfl
      | b y =>
        cases x
        · exact Or.inl rfl
        · cases y
          · exact Or.inr rfl
          · exact Or.inl rfl

instance : IsTrans Val Val.le where
  trans a b c hab hbc := by
    have hl : ∀ as bs cs : List Char, charListLe as bs = true → charListLe bs cs = true →
        charListLe as cs = true := by
      intro as
      induction as with
      | nil => intro bs cs _ _; rfl
      | cons a as2 ih =>
        intro bs cs h1 h2
        cases bs with
        | nil => simp [charListLe] at h1
        | cons b bs2 =>
          cases cs with
          | nil => simp [charListLe] at h2
          | cons c cs2 =>
            simp only [charListLe] at h1 h2 ⊢
            by_cases hab2 : a = b <;> by_cases hbc2 : b = c
            · subst hab2; subst hbc2
              rw [if_pos rfl] at h1 h2 ⊢
              exact ih bs2 cs2 h1 h2
            · subst hab2
              rw [if_neg hbc2] at h2
              rw [if_neg hbc2, h2]
            · subst hbc2
              rw [if_neg hab2] at h1
              rw [if_neg hab2, h1]
            · rw [if_neg hab2] at h1
              rw [if_neg hbc2] at h2
              have hac : a < c :=
                lt_trans (of_decide_eq_true h1) (of_decide_eq_true h2)
              rw [if_neg (ne_of_lt hac), decide_eq_true hac]
    cases a with
    | s x =>
      cases b with
      | s y =>
        cases c with
        | s z => exact hl x.data y.data z.data hab hbc
        | b z => exact Bool.noConfusion hbc
      | b y => exact Bool.noConfusion hab
    | b x =>
      cases c with
      | s z => exact rfl
      | b z =>
        cases b with
        | s y => exact Bool.noConfusion hbc
        | b y =>
          cases x <;> cases y <;> cases z <;> revert hab hbc <;> decide

/-- Pagination loop of find_selections: walks the sorted value list, counts
term-matching values into `seen` until `skip` of them have been passed,
then collects term-matching values until the page is full (the source
breaks once `len(filtered) >= pagesize`, after appending). -/
def selPage (term : String) (pagesize : Nat) :
    List Val → Nat → Nat → List Val → List Val
  | [], _, _, filtered => filtered
  | x :: xs, seen, skip, filtered =>
    if valMatches term x then
      if seen < skip then
        selPage term pagesize xs (seen + 1) skip filtered
      else
        let f := filtered ++ [x]
        if pagesize ≤ f.length then f
        else selPage term pagesize xs seen skip f
    else
      selPage term pagesize xs seen skip filtered

/-- Outcome of the descent phase of find_selections. -/
inductive DescendRes where
  | invalid
  | exhausted
  | openDim (requested : String) (curr : STree)

/-- Descent phase of StreamManager.find_selections: consumes keylist keys
that are present in `selected`, coercing the exact strings true/false to
booleans when the string itself is not a branch but the boolean might be,
and stops at the first keylist key absent from `selected` (the open
dimension).  Returns invalid when a selected value has no branch, and
exhausted when every keylist key was selected (the source then refuses to
return the stream id list).  The leaf arm is unreachable for schema-shaped
trees. -/
def selDescend (selected : List (String × Val)) : List String → STree → DescendRes
  | [], _ => .exhausted
  | k :: rest, t =>
    match plookup selected k with
    | none => .openDim k t
    | some v0 =>
      match t with
      | .leaf _ => .invalid
      | .node cs =>
        let v1 := if (lookupVal cs v0).isNone ∧ v0 = .s "true" then .b true else v0
        let v2 := if (lookupVal cs v1).isNone ∧ v1 = .s "false" then .b false else v1
        match lookupVal cs v2 with
        | none => .invalid
        | some sub => selDescend selected rest sub

/-- Result of StreamManager.find_selections: None (invalid selection), the
pair (None, []) at the bottom of the hierarchy, or a page together with the
open dimension's name and the total number of values at that level (the
source's `maxitems` is `len(result)` computed before the term filter). -/
inductive SelOutcome where
  | invalid
  | exhausted
  | page (requested : String) (maxitems : Nat) (items : List Val)
deriving DecidableEq, Repr

/-- Items of a find_selections outcome (empty unless a page was returned). -/
def SelOutcome.items : SelOutcome → List Val
  | .page _ _ its => its
  | _ => []

/-- Maxitems of a find_selections outcome (zero unless a page was returned). -/
def SelOutcome.maxitems : SelOutcome → Nat
  | .page _ mi _ => mi
  | _ => 0

/-- StreamManager.find_selections: descend along the selected properties,
then sort the values of the open dimension, filter them by the term and
paginate 1-indexed (`skip = int(pageno)*pagesize - pagesize`; natural
subtraction agrees with the source for every pageno because a negative skip
never skips anything). -/
def find_selections (mgr : StreamManager) (selected : List (String × Val))
    (term : String) (pageno pagesize : Nat) : SelOutcome :=
  match selDescend selected mgr.keylist mgr.basedict with
  | .invalid => .invalid
  | .exhausted => .exhausted
  | .openDim requested curr =>
    let result := (childVals curr).insertionSort Val.le
    let skip := pageno * pagesize - pagesize
    let filtered := selPage term pagesize result 0 skip []
    .page requested result.length filtered

/-! Protocol client: libampy/nntsc.py, class NNTSCConnection.  The socket is
abstracted to a list of incoming messages; running out of messages models a
socket failure inside _get_nntsc_message (which logs, disconnects and
returns None).  Stream entries and collection descriptors are opaque and
modelled by numeric identifiers. -/

/-- Messages NNTSC can deliver, by message-type tag.  `other` stands for any
further tag. -/
inductive NMsg where
  | collectionsMsg (collections : List Nat)
  | streamsMsg (collection : Nat) (streams : List Nat) (more : Bool)
  | activeStreamsMsg (collection : Nat) (streams : List Nat) (more : Bool)
  | history (collection : Nat) (streamid : String) (binsize : Option Nat)
      (histdata : List Nat) (more : Bool)
  | queryCancelled (collection : Nat) (labels : List String)
      (qstart qend : Nat) (more : Bool)
  | other (tag : Nat)
deriving DecidableEq, Repr

/-- Connection state of the NNTSCConnection: whether self.client is set. -/
structure Conn where
  client : Bool
deriving DecidableEq, Repr

/-- The _connect method: reuses an existing client, otherwise the retry loop
either eventually yields a session (ok = true) or the socket layer fails
(ok = false, self.client stays None). -/
def connect (c : Conn) (ok : Bool) : Conn :=
  if c.client then c else { client := ok }

/-- The _disconnect method: closes any session and clears self.client. -/
def disconnect (_ : Conn) : Conn :=
  { client := false }

/-- The request type passed to request_streams. -/
inductive ReqType where
  | streams
  | activeStreams
deriving DecidableEq, Repr

/-- NNTSCConnection.request_collections: connect, send the request, then a
single response decides the call; every return path disconnects first. -/
def request_collections (c : Conn) (connectOk : Bool) (msgs : List NMsg) :
    Option (List Nat) × Conn :=
  let c := connect c connectOk
  if c.client = false then (none, c)
  else
    match msgs with
    | [] => (none, disconnect c)
    | m :: _ =>
      match m with
      | .collectionsMsg cols => (some cols, disconnect c)
      | .queryCancelled _ _ _ _ _ => (none, disconnect c)
      | _ => (none, disconnect c)

/-- Receive loop of NNTSCConnection.request_streams: batches whose type
matches the request type and whose collection matches accumulate until one
arrives with more = False; a batch for another collection is skipped; a
QueryCancelled message or a batch of the wrong type aborts with None.  Every
exit disconnects. -/
def rsLoop (reqtype : ReqType) (colid : Nat) :
    List NMsg → List Nat → Conn → Option (List Nat) × Conn
  | [], _, c => (none, disconnect c)
  | m :: rest, streams, c =>
    match m with
    | .streamsMsg col ss more =>
      if reqtype = .streams then
        if col = colid then
          if more = false then (some (streams ++ ss), disconnect c)
          else rsLoop reqtype colid rest (streams ++ ss) c
        else rsLoop reqtype colid rest streams c
      else (none, disconnect c)
    | .activeStreamsMsg col ss more =>
      if reqtype = .activeStreams then
        if col = colid then
          if more = false then (some (streams ++ ss), disconnect c)
          else rsLoop reqtype colid rest (streams ++ ss) c
        else rsLoop reqtype colid rest streams c
      else (none, disconnect c)
    | .queryCancelled _ _ _ _ _ => (none, disconnect c)
    | _ => (none, disconnect c)

/-- NNTSCConnection.request_streams. -/
def request_streams (c : Conn) (connectOk : Bool) (reqtype : ReqType) (colid : Nat)
    (msgs : List NMsg) : Option (List Nat) × Conn :=
  let c := connect c connectOk
  if c.client = false then (none, c)
  else rsLoop reqtype colid msgs [] c

/-- Per-label accumulator of _parse_nntsc_history, one Python inner dict:
the keys data and timedout always exist once the label is touched, the key
freq only sometimes (hence the Option). -/
structure HEntry where
  hdata : List Nat
  timedout : List (Nat × Nat)
  freq : Option Nat
deriving DecidableEq, Repr

/-- Lookup in the label -> entry dictionary. -/
def hlookup : List (String × HEntry) → String → Option HEntry
  | [], _ => none
  | (k, v) :: r, key => if k = key then some v else hlookup r key

/-- In-place update of the label -> entry dictionary. -/
def hupdate : List (String × HEntry) → String → HEntry → List (String × HEntry)
  | [], key, v => [(key, v)]
  | (k, u) :: r, key, v => if k = key then (key, v) :: r else (k, u) :: hupdate r key v

/-- Outcome of _parse_nntsc_history: a result dictionary, the None error
return, or an uncaught Python exception escaping the method. -/
inductive PResult (α : Type) where
  | ok (val : α)
  | err
  | exc
deriving DecidableEq, Repr

/-- Processing of the label list of one QueryCancelled message: labels not
requested are skipped; a touched label gets the (start, end) range appended
to its timedout list; when more = False the terminal fragment additionally
defaults the frequency to 60 if none was recorded and counts the label as
complete. -/
def qcLabels (labels : List String) (qstart qend : Nat) (more : Bool) :
    List String → List (String × HEntry) → Nat → List (String × HEntry) × Nat
  | [], data, count => (data, count)
  | lab :: rest, data, count =>
    if lab ∈ labels then
      let e :=
        match hlookup data lab with
        | some e => e
        | none => { hdata := [], timedout := [], freq := none }
      let e := { e with timedout := e.timedout ++ [(qstart, qend)] }
      if more = false then
        let e := if e.freq = none then { e with freq := some 60 } else e
        qcLabels labels qstart qend more rest (hupdate data lab e) (count + 1)
      else
        qcLabels labels qstart qend more rest (hupdate data lab e) count
    else
      qcLabels labels qstart qend more rest data count

/-- Receive loop of NNTSCConnection._parse_nntsc_history.  STREAMS messages
and messages of unexpected type are skipped silently, QueryCancelled
messages for the collection record timed-out ranges and complete labels on
terminal fragments, History messages for the collection append data and
complete labels on terminal fragments.  A History message for a label whose
entry was created by a cancellation fragment and never received a frequency
reads the missing freq key: the source raises an uncaught KeyError there,
modelled by the exc outcome (which leaves the connection open).  Running
out of messages models a socket failure: disconnect and None. -/
def parseLoop (colid : Nat) (labels : List String) :
    List NMsg → List (String × HEntry) → Nat → Conn → PResult (List (String × HEntry)) × Conn
  | msgs, data, count, c =>
    if labels.length ≤ count then (.ok data, disconnect c)
    else
      match msgs with
      | [] => (.err, disconnect c)
      | m :: rest =>
        match m with
        | .streamsMsg _ _ _ => parseLoop colid labels rest data count c
        | .queryCancelled col qlabs qs qe more =>
          if col = colid then
            let r := qcLabels labels qs qe more qlabs data count
            parseLoop colid labels rest r.1 r.2 c
          else parseLoop colid labels rest data count c
        | .history col label binsize hdata more =>
          if col = colid then
            if label ∈ labels then
              let e :=
                match hlookup data label with
                | some e => e
                | none => { hdata := [], timedout := [], freq := some 0 }
              match e.freq with
              | none => (.exc, c)
              | some f =>
                let e := if f = 0 ∧ binsize.isSome then { e with freq := binsize } else e
                let e := { e with hdata := e.hdata ++ hdata }
                let count := if more = false then count + 1 else count
                parseLoop colid labels rest (hupdate data label e) count c
            else parseLoop colid labels rest data count c
          else parseLoop colid labels rest data count c
        | _ => parseLoop colid labels rest data count c

/-- NNTSCConnection.request_history: connect, issue the aggregate request or
the raw-data subscription (binsize < 0), then parse the streamed response.
sendOk models the client helper returning -1 on failure. -/
def request_history (c : Conn) (connectOk : Bool) (colid : Nat) (labels : List String)
    (binsize : Int) (sendOk : Bool) (msgs : List NMsg) :
    PResult (List (String × HEntry)) × Conn :=
  let c := connect c connectOk
  if c.client = false then (.err, c)
  else if sendOk = false then (.err, disconnect c)
  else parseLoop colid labels msgs [] 0 c

/-! Orchestrator: ampy/ampy.py, Ampy.get_recent_data and Ampy.get_historic_data.
The external collaborators (view manager via _view_to_groups, collection
modules via _getcol with their group_to_labels / get_collection_recent /
get_collection_history / parse_group_description methods) are out of the
core per the specification and enter as function-valued parameters; the
orchestration control flow itself is translated from the source. -/

/-- Opaque per-label result data returned by a collection module. -/
abbrev RData := Nat

/-- One collection module as returned by Ampy._getcol, restricted to the
methods the two orchestration functions call.  Labels are opaque (Nat).
group_to_labels may fail (None); the two fetch methods may fail (None);
parse_group_description is total here (its failure path is outside the
embedded claims). -/
structure Collection where
  groupToLabels : Nat → String → Option (List Nat)
  getRecent : List Nat → Option (List (String × RData) × List String)
  getHistory : List Nat → Option (List (String × RData))
  parseGroupDescription : String → List (String × String)

/-- Label collection loop shared by both functions: a group whose
group_to_labels call fails is logged and skipped, the labels of the others
are concatenated. -/
def collectLabels (col : Collection) : List (Nat × String) → List Nat
  | [] => []
  | (gid, descr) :: rest =>
    match col.groupToLabels gid descr with
    | none => collectLabels col rest
    | some ls => ls ++ collectLabels col rest

/-- Dictionary update for merging per-label result dictionaries
(Python dict.update applied binding by binding). -/
def aupd {α : Type} : List (String × α) → String → α → List (String × α)
  | [], key, v => [(key, v)]
  | (k, u) :: r, key, v => if k = key then (key, v) :: r else (k, u) :: aupd r key v

/-- Python `d.update(e)` on string-keyed dictionaries. -/
def dictUpdate {α : Type} (d : List (String × α)) (e : List (String × α)) :
    List (String × α) :=
  e.foldl (fun acc kv => aupd acc kv.1 kv.2) d

/-- Per-collection loop of Ampy.get_recent_data: a missing collection module
aborts the whole call with None, a failed get_collection_recent call is
skipped (its result is simply not merged), a successful one merges its data
and appends its timed-out labels. -/
def grdLoop (getcol : String → Option Collection) :
    List (String × List (Nat × String)) → List (String × RData) × List String →
    Option (List (String × RData) × List String)
  | [], acc => some acc
  | (colname, vgs) :: rest, acc =>
    match getcol colname with
    | none => none
    | some col =>
      let alllabels := collectLabels col vgs
      match col.getRecent alllabels with
      | some r => grdLoop getcol rest (dictUpdate acc.1 r.1, acc.2 ++ r.2)
      | none => grdLoop getcol rest acc

/-- Ampy.get_recent_data: resolve the view to its per-collection group
lists (None aborts), then run the per-collection loop. -/
def get_recent_data (viewgroups : Option (List (String × List (Nat × String))))
    (getcol : String → Option Collection) :
    Option (List (String × RData) × List String) :=
  match viewgroups with
  | none => none
  | some groups => grdLoop getcol groups ([], [])

/-- Raw-mode group descriptions collected by get_historic_data when
binsize < 0: parse_group_description output plus a collection entry. -/
def rawDescs (col : Collection) (colname : String) :
    List (Nat × String) → List (Nat × List (String × String)) → List (Nat × List (String × String))
  | [], acc => acc
  | (gid, descr) :: rest, acc =>
    let d := aupd (col.parseGroupDescription descr) "collection" colname
    rawDescs col colname rest (acc ++ [(gid, d)])

/-- Per-collection loop of Ampy.get_historic_data: a missing collection
module aborts with None, and a failed get_collection_history call aborts
with None; a successful one merges its data. -/
def ghdLoop (getcol : String → Option Collection) (raw : Bool) :
    List (String × List (Nat × String)) →
    List (String × RData) × List (Nat × List (String × String)) →
    Option (List (String × RData) × List (Nat × List (String × String)))
  | [], acc => some acc
  | (colname, vgs) :: rest, acc =>
    match getcol colname with
    | none => none
    | some col =>
      let descs := if raw then rawDescs col colname vgs acc.2 else acc.2
      let alllabels := collectLabels col vgs
      match col.getHistory alllabels with
      | none => none
      | some colhist => ghdLoop getcol raw rest (dictUpdate acc.1 colhist, descs)

/-- Return value of get_historic_data: the raw-mode (description, history)
pair or the plain history dictionary. -/
inductive HistOut where
  | raw (descs : List (Nat × List (String × String))) (hist : List (String × RData))
  | plain (hist : List (String × RData))

/-- Ampy.get_historic_data: resolve the view (None aborts), run the
per-collection loop, and shape the result according to the binsize mode. -/
def get_historic_data (viewgroups : Option (List (String × List (Nat × String))))
    (getcol : String → Option Collection) (binsize : Option Int) : Option HistOut :=
  match viewgroups with
  | none => none
  | some groups =>
    let raw := match binsize with
      | some b => decide (b < 0)
      | none => false
    match ghdLoop getcol raw groups ([], []) with
    | none => none
    | some acc => if raw then some (.raw acc.2 acc.1) else some (.plain acc.1)

/-! Support definitions used by the statements below. -/

/-- One add_stream call, for reasoning about sequences of insertions. -/
structure AddOp where
  sid : Nat
  storage : Option String
  props : List (String × Val)

/-- Application of one add_stream call to a manager (result list discarded). -/
def applyOp (mgr : StreamManager) (op : AddOp) : StreamManager :=
  (add_stream mgr op.sid op.storage op.props).2

/-- Application of a sequence of add_stream calls. -/
def applyOps (mgr : StreamManager) (ops : List AddOp) : StreamManager :=
  ops.foldl applyOp mgr

/-- A message that the request_streams receive loop consumes without
finishing and without aborting: a batch of the requested type that either
belongs to another collection or is flagged more = True. -/
def streamBenign (reqtype : ReqType) (colid : Nat) : NMsg → Bool
  | .streamsMsg col _ more => if reqtype = .streams then (col != colid) || more else false
  | .activeStreamsMsg col _ more => if reqtype = .activeStreams then (col != colid) || more else false
  | _ => false

/-- Sorted sibling values of an open dimension, as find_selections builds
them. -/
def dimSorted (curr : STree) : List Val :=
  (childVals curr).insertionSort Val.le

/-- The term-matching subsequence of the sorted sibling values. -/
def dimMatched (term : String) (curr : STree) : List Val :=
  (dimSorted curr).filter (valMatches term)

/-- Example manager with a single-key schema and two string values, used by
concrete instantiations. -/
def exMgrSrc : StreamManager :=
  (add_stream (add_stream (StreamManager.mk0 ["source"]) 1 none
    [("source", Val.s "abc")]).2 2 none [("source", Val.s "xyz")]).2

/-- Example manager holding one stream whose family property is the boolean
True, used by concrete instantiations. -/
def exMgrFam : StreamManager :=
  (add_stream (StreamManager.mk0 ["family", "x"]) 1 none
    [("family", Val.b true), ("x", Val.s "v")]).2

/-- Example collection module whose fetch calls succeed. -/
def exColGood : Collection :=
  { groupToLabels := fun _ _ => some [1]
    getRecent := fun _ => some ([("l", (3 : RData))], [])
    getHistory := fun _ => some [("l", (3 : RData))]
    parseGroupDescription := fun _ => [] }

/-- Example collection module whose fetch calls fail. -/
def exColBad : Collection :=
  { groupToLabels := fun _ _ => some [1]
    getRecent := fun _ => none
    getHistory := fun _ => none
    parseGroupDescription := fun _ => [] }

/-- Example collection-module factory. -/
def exGetcol : String → Option Collection :=
  fun s => if s = "good" then some exColGood else if s = "bad" then some exColBad else none

/-! Helper lemmas about the stream hierarchy. -/

theorem foldl_append_eq {α β : Type} (f : α → List β) :
    ∀ (cs : List α) (init : List β),
      cs.foldl (fun acc c => acc ++ f c) init = init ++ (cs.map f).flatten := by
  intro cs
  induction cs with
  | nil => intro init; simp
  | cons c rest ih =>
    intro init
    simp only [List.foldl_cons, List.map_cons, List.flatten_cons]
    rw [ih]
    simp [List.append_assoc]

theorem lookupVal_updVal_self (v : Val) (t : STree) :
    ∀ cs : List (Val × STree), lookupVal (updVal cs v t) v = some t := by
  intro cs
  induction cs with
  | nil => simp [updVal, lookupVal]
  | cons c rest ih =>
    by_cases h : c.1 = v
    · simp [updVal, h, lookupVal]
    · simp [updVal, h, lookupVal, ih]

theorem lookupVal_updVal_ne (v w : Val) (t : STree) (hne : w ≠ v) :
    ∀ cs : List (Val × STree), lookupVal (updVal cs v t) w = lookupVal cs w := by
  intro cs
  induction cs with
  | nil =>
    simp only [updVal, lookupVal]
    rw [if_neg (fun h => hne h.symm)]
  | cons c rest ih =>
    obtain ⟨k, u⟩ := c
    by_cases h : k = v
    · subst h
      simp only [updVal, if_pos rfl, lookupVal]
      rw [if_neg (fun h2 => hne h2.symm), if_neg (fun h2 => hne h2.symm)]
    · simp only [updVal, if_neg h, lookupVal, ih]

theorem addAux_mem_findAux (entry : SEntry) (props : List (String × Val))
    (lastKey : Option String) :
    ∀ (keys : List String) (tree : STree) (es : List SEntry),
      (addAux entry props lastKey keys tree).1 = some es →
      entry ∈ findAux props keys (addAux entry props lastKey keys tree).2 := by
  intro keys
  induction keys with
  | nil =>
    intro tree es h
    cases tree with
    | leaf es0 => simp [addAux, findAux]
    | node cs => simp [addAux] at h
  | cons k rest ih =>
    intro tree es h
    cases tree with
    | leaf es0 => simp [addAux] at h
    | node cs =>
      cases hp : plookup props k with
      | none => simp [addAux, hp] at h
      | some val =>
        simp only [addAux, hp] at h ⊢
        simp only [findAux, hp, lookupVal_updVal_self]
        exact ih _ es h

theorem mem_updVal_self (v : Val) (t : STree) :
    ∀ cs : List (Val × STree), (v, t) ∈ updVal cs v t := by
  intro cs
  induction cs with
  | nil => simp [updVal]
  | cons c rest ih =>
    obtain ⟨k, u⟩ := c
    by_cases h : k = v
    · simp [updVal, h]
    · simp only [updVal, if_neg h]
      exact List.mem_cons_of_mem _ ih

theorem updVal_of_lookup_none (v : Val) (t : STree) :
    ∀ cs : List (Val × STree), lookupVal cs v = none → updVal cs v t = cs ++ [(v, t)] := by
  intro cs
  induction cs with
  | nil => intro _; simp [updVal]
  | cons c rest ih =>
    obtain ⟨k, u⟩ := c
    intro h
    simp only [lookupVal] at h
    by_cases hk : k = v
    · simp [hk] at h
    · simp only [updVal, if_neg hk, List.cons_append, List.cons.injEq, true_and]
      exact ih (by simpa [hk] using h)

theorem findAux_node_nil (props : List (String × Val)) :
    ∀ keys : List String, findAux props keys (.node []) = [] := by
  intro keys
  cases keys with
  | nil => simp [findAux]
  | cons k rest =>
    cases hp : plookup props k with
    | none => simp [findAux, hp]
    | some v => simp [findAux, hp, lookupVal]

theorem findAux_leaf_nil (props : List (String × Val)) :
    ∀ keys : List String, findAux props keys (.leaf []) = [] := by
  intro keys
  cases keys with
  | nil => simp [findAux]
  | cons k rest => simp [findAux]

theorem findAux_new_child (props : List (String × Val)) (lastKey : Option String)
    (k : String) : ∀ keys : List String,
    findAux props keys (if lastKey = some k then STree.leaf [] else STree.node []) = [] := by
  intro keys
  by_cases h : lastKey = some k
  · simp [h, findAux_leaf_nil]
  · simp [h, findAux_node_nil]

theorem findAux_wild_node (props : List (String × Val)) (k : String) (rest : List String)
    (cs : List (Val × STree)) (hk : plookup props k = none) :
    findAux props (k :: rest) (.node cs) =
      (cs.map (fun c => findAux props rest c.2)).flatten := by
  simp [findAux, hk, foldl_append_eq]

theorem addAux_mem_findAux_wild (entry : SEntry) (props : List (String × Val))
    (lastKey : Option String) :
    ∀ (keys : List String) (tree : STree) (es : List SEntry),
      (addAux entry props lastKey keys tree).1 = some es →
      entry ∈ findAux [] keys (addAux entry props lastKey keys tree).2 := by
  intro keys
  induction keys with
  | nil =>
    intro tree es h
    cases tree with
    | leaf es0 => simp [addAux, findAux]
    | node cs => simp [addAux] at h
  | cons k rest ih =>
    intro tree es h
    cases tree with
    | leaf es0 => simp [addAux] at h
    | node cs =>
      cases hp : plookup props k with
      | none => simp [addAux, hp] at h
      | some val =>
        simp only [addAux, hp] at h ⊢
        rw [findAux_wild_node _ _ _ _ (by simp [plookup])]
        refine List.mem_flatten.mpr ⟨findAux [] rest
          (addAux entry props lastKey rest
            (match lookupVal cs val with
             | some c => c
             | none => if lastKey = some k then STree.leaf [] else STree.node [])).2, ?_, ?_⟩
        · exact List.mem_map.mpr ⟨(val, _), mem_updVal_self _ _ _, rfl⟩
        · exact ih _ es h

theorem flattenFind_updVal_mono (P : STree → List SEntry) (val : Val) (t2 : STree)
    (e : SEntry) :
    ∀ cs : List (Val × STree),
      (∀ u, lookupVal cs val = some u → ∀ x ∈ P u, x ∈ P t2) →
      e ∈ (cs.map (fun c => P c.2)).flatten →
      e ∈ ((updVal cs val t2).map (fun c => P c.2)).flatten := by
  intro cs
  induction cs with
  | nil => intro _ h; simp at h
  | cons c rest ih =>
    obtain ⟨k, u⟩ := c
    intro hmono hmem
    by_cases hk : k = val
    · subst hk
      have hupd : updVal ((k, u) :: rest) k t2 = (k, t2) :: rest := by
        simp [updVal]
      rw [hupd]
      simp only [List.map_cons, List.flatten_cons, List.mem_append] at hmem ⊢
      rcases hmem with hmem | hmem
      · exact Or.inl (hmono u (by simp [lookupVal]) e hmem)
      · exact Or.inr hmem
    · simp only [updVal, if_neg hk, List.map_cons, List.flatten_cons, List.mem_append] at hmem ⊢
      rcases hmem with hmem | hmem
      · exact Or.inl hmem
      · refine Or.inr (ih ?_ hmem)
        intro w hw x hx
        exact hmono w (by simpa [lookupVal, hk] using hw) x hx

theorem addAux_mono_wild (entry : SEntry) (props : List (String × Val))
    (lastKey : Option String) :
    ∀ (keys : List String) (tree : STree) (e : SEntry),
      e ∈ findAux [] keys tree →
      e ∈ findAux [] keys (addAux entry props lastKey keys tree).2 := by
  intro keys
  induction keys with
  | nil =>
    intro tree e h
    cases tree with
    | leaf es0 =>
      simp only [addAux, findAux] at h ⊢
      exact List.mem_append_left _ h
    | node cs => simpa [addAux, findAux] using h
  | cons k rest ih =>
    intro tree e h
    cases tree with
    | leaf es0 => simpa [addAux, findAux] using h
    | node cs =>
      cases hp : plookup props k with
      | none => simpa [addAux, hp] using h
      | some val =>
        simp only [addAux, hp]
        rw [findAux_wild_node _ _ _ _ (by simp [plookup])] at h ⊢
        refine flattenFind_updVal_mono _ val _ e cs ?_ h
        intro u hu x hx
        rw [hu]
        exact ih u x hx

theorem add_stream_parts (mgr : StreamManager) (streamid : Nat) (storage : Option String)
    (props : List (String × Val)) :
    (add_stream mgr streamid storage props).1 =
      (addAux (mkEntry streamid storage) props mgr.keylist.getLast? mgr.keylist mgr.basedict).1 ∧
    (add_stream mgr streamid storage props).2.keylist = mgr.keylist ∧
    (add_stream mgr streamid storage props).2.basedict =
      (addAux (mkEntry streamid storage) props mgr.keylist.getLast? mgr.keylist mgr.basedict).2 := by
  unfold add_stream
  cases hres : (addAux (mkEntry streamid storage) props mgr.keylist.getLast?
      mgr.keylist mgr.basedict).1 <;> simp [hres]

theorem find_streams_wild_mono (m : StreamManager) (op : AddOp) (e : SEntry)
    (h : e ∈ find_streams m []) : e ∈ find_streams (applyOp m op) [] := by
  obtain ⟨-, hk, hb⟩ := add_stream_parts m op.sid op.storage op.props
  unfold applyOp
  simp only [find_streams, hk, hb]
  exact addAux_mono_wild _ _ _ _ _ _ h

/-- C5: For every StreamManager and every id inserted by a successful
add_stream call with a value for every schema key, a subsequent
find_streams call with exactly that property dictionary returns a list
containing that id (as the bare id, or as the first element of an
(id, storage) pair when extra storage was supplied at insertion). -/
theorem claim_C5_insert_then_exact_lookup (mgr : StreamManager) (streamid : Nat)
    (storage : Option String) (props : List (String × Val)) (es : List SEntry)
    (mgr2 : StreamManager)
    (h : add_stream mgr streamid storage props = (some es, mgr2)) :
    mkEntry streamid storage ∈ find_streams mgr2 props := by
  obtain ⟨hf, hk, hb⟩ := add_stream_parts mgr streamid storage props
  have hm2 : mgr2 = (add_stream mgr streamid storage props).2 := by rw [h]
  have hsome : (addAux (mkEntry streamid storage) props mgr.keylist.getLast?
      mgr.keylist mgr.basedict).1 = some es := by
    rw [← hf, h]
  subst hm2
  simp only [find_streams, hk, hb]
  exact addAux_mem_findAux _ _ _ _ _ es hsome

/-- Witness for C5 at a concrete insertion. -/
theorem claim_C5_insert_then_exact_lookup_witness :
    mkEntry 1 none ∈ find_streams
      (StreamManager.mk ["a"] (.node [(Val.s "x", .leaf [SEntry.bare 1])])
        [(1, ([Val.s "x"], none))])
      [("a", Val.s "x")] :=
  claim_C5_insert_then_exact_lookup (StreamManager.mk0 ["a"]) 1 none
    [("a", Val.s "x")] [SEntry.bare 1]
    (StreamManager.mk ["a"] (.node [(Val.s "x", .leaf [SEntry.bare 1])])
      [(1, ([Val.s "x"], none))]) rfl

/-- C7: Once a stream has been inserted by a successful add_stream call, a
find_streams call with an empty properties dictionary (every key
wildcarded) on the manager obtained after any further sequence of
add_stream calls still returns that stream: the fully wildcarded lookup
returns every id ever inserted, regardless of insertion order. -/
theorem claim_C7_wildcard_returns_all (mgr : StreamManager) (streamid : Nat)
    (storage : Option String) (props : List (String × Val)) (es : List SEntry)
    (mgr2 : StreamManager) (ops : List AddOp)
    (h : add_stream mgr streamid storage props = (some es, mgr2)) :
    mkEntry streamid storage ∈ find_streams (applyOps mgr2 ops) [] := by
  have hbase : mkEntry streamid storage ∈ find_streams mgr2 [] := by
    obtain ⟨hf, hk, hb⟩ := add_stream_parts mgr streamid storage props
    have hm2 : mgr2 = (add_stream mgr streamid storage props).2 := by rw [h]
    have hsome : (addAux (mkEntry streamid storage) props mgr.keylist.getLast?
        mgr.keylist mgr.basedict).1 = some es := by
      rw [← hf, h]
    subst hm2
    simp only [find_streams, hk, hb]
    exact addAux_mem_findAux_wild _ _ _ _ _ es hsome
  clear h
  induction ops generalizing mgr2 with
  | nil => exact hbase
  | cons op rest ih =>
    exact ih (applyOp mgr2 op) (find_streams_wild_mono mgr2 op _ hbase)

/-- Witness for C7 at a concrete insertion followed by one further
insertion. -/
theorem claim_C7_wildcard_returns_all_witness :
    mkEntry 1 none ∈ find_streams
      (applyOps
        (StreamManager.mk ["a"] (.node [(Val.s "x", .leaf [SEntry.bare 1])])
          [(1, ([Val.s "x"], none))])
        [⟨2, none, [("a", Val.s "y")]⟩]) [] :=
  claim_C7_wildcard_returns_all (StreamManager.mk0 ["a"]) 1 none
    [("a", Val.s "x")] [SEntry.bare 1]
    (StreamManager.mk ["a"] (.node [(Val.s "x", .leaf [SEntry.bare 1])])
      [(1, ([Val.s "x"], none))])
    [⟨2, none, [("a", Val.s "y")]⟩] rfl

theorem flattenFind_updVal_eq_some (P : STree → List SEntry) (val : Val) (t2 : STree) :
    ∀ (cs : List (Val × STree)) (u : STree), lookupVal cs val = some u → P t2 = P u →
      ((updVal cs val t2).map (fun c => P c.2)).flatten = (cs.map (fun c => P c.2)).flatten := by
  intro cs
  induction cs with
  | nil => intro u hu _; simp [lookupVal] at hu
  | cons c rest ih =>
    obtain ⟨k, w⟩ := c
    intro u hu hP
    by_cases hk : k = val
    · subst hk
      obtain rfl : w = u := by simpa [lookupVal] using hu
      have hupd : updVal ((k, w) :: rest) k t2 = (k, t2) :: rest := by
        simp [updVal]
      rw [hupd]
      simp [hP]
    · simp only [lookupVal, if_neg hk] at hu
      simp only [updVal, if_neg hk, List.map_cons, List.flatten_cons]
      rw [ih u hu hP]

theorem addAux_missing (entry : SEntry) (props : List (String × Val))
    (lastKey : Option String) (k0 : String) (hk0 : plookup props k0 = none) :
    ∀ (keys : List String) (tree : STree), k0 ∈ keys →
      (addAux entry props lastKey keys tree).1 = none ∧
      ∀ q, findAux q keys (addAux entry props lastKey keys tree).2 = findAux q keys tree := by
  intro keys
  induction keys with
  | nil => intro tree hmem; simp at hmem
  | cons k rest ih =>
    intro tree hmem
    cases tree with
    | leaf es => simp [addAux]
    | node cs =>
      cases hp : plookup props k with
      | none => simp [addAux, hp]
      | some val =>
        have hk0rest : k0 ∈ rest := by
          rcases List.mem_cons.mp hmem with h | h
          · subst h; rw [hp] at hk0; cases hk0
          · exact h
        obtain ⟨ih1, ih2⟩ := ih (match lookupVal cs val with
          | some c => c
          | none => if lastKey = some k then STree.leaf [] else STree.node []) hk0rest
        constructor
        · simp only [addAux, hp]
          exact ih1
        · intro q
          simp only [addAux, hp]
          cases hq : plookup q k with
          | some qv =>
            by_cases hqv : qv = val
            · subst hqv
              simp only [findAux, hq, lookupVal_updVal_self]
              cases hcv : lookupVal cs qv with
              | some u =>
                rw [hcv] at ih2
                simpa using ih2 q
              | none =>
                rw [hcv] at ih2
                rw [ih2 q, findAux_new_child]
            · simp only [findAux, hq, lookupVal_updVal_ne val qv _ hqv]
          | none =>
            rw [findAux_wild_node _ _ _ _ hq, findAux_wild_node _ _ _ _ hq]
            cases hcv : lookupVal cs val with
            | some u =>
              rw [hcv] at ih2
              exact flattenFind_updVal_eq_some (findAux q rest) val _ cs u hcv
                (by simpa using ih2 q)
            | none =>
              rw [hcv] at ih2
              rw [updVal_of_lookup_none _ _ _ hcv]
              have hnil : findAux q rest
                  (addAux entry props lastKey rest
                    (if lastKey = some k then STree.leaf [] else STree.node [])).2 = [] := by
                rw [ih2 q, findAux_new_child]
              simp [hnil]

theorem add_stream_streams_of_fail (mgr : StreamManager) (streamid : Nat)
    (storage : Option String) (props : List (String × Val))
    (h : (addAux (mkEntry streamid storage) props mgr.keylist.getLast?
      mgr.keylist mgr.basedict).1 = none) :
    (add_stream mgr streamid storage props).2.streams = mgr.streams := by
  unfold add_stream
  simp [h]

/-- C9: an add_stream call whose properties omit a schema key returns None,
appends no stream id anywhere, leaves the reverse id-to-properties map
unchanged (so find_streams answers every query as before and
find_stream_properties is unchanged), yet is not a complete no-op: the
failed call below makes a new value visible to find_selections. -/
theorem claim_C9_failed_insert_partial_mutation (mgr : StreamManager) (streamid : Nat)
    (storage : Option String) (props : List (String × Val)) (k0 : String)
    (hk0mem : k0 ∈ mgr.keylist) (hk0 : plookup props k0 = none) :
    (add_stream mgr streamid storage props).1 = none ∧
    (add_stream mgr streamid storage props).2.streams = mgr.streams ∧
    (∀ q, find_streams (add_stream mgr streamid storage props).2 q = find_streams mgr q) ∧
    (∀ sid, find_stream_properties (add_stream mgr streamid storage props).2 sid =
      find_stream_properties mgr sid) ∧
    find_selections (applyOp (StreamManager.mk0 ["a", "b"]) ⟨1, none, [("a", Val.s "x")]⟩)
        [] "" 1 10 ≠
      find_selections (StreamManager.mk0 ["a", "b"]) [] "" 1 10 := by
  obtain ⟨hf, hk, hb⟩ := add_stream_parts mgr streamid storage props
  obtain ⟨h1, h2⟩ := addAux_missing (mkEntry streamid storage) props mgr.keylist.getLast?
    k0 hk0 mgr.keylist mgr.basedict hk0mem
  have hfst : (add_stream mgr streamid storage props).1 = none := by rw [hf]; exact h1
  have hstr : (add_stream mgr streamid storage props).2.streams = mgr.streams :=
    add_stream_streams_of_fail mgr streamid storage props h1
  refine ⟨hfst, hstr, ?_, ?_, ?_⟩
  · intro q
    simp only [find_streams, hk, hb]
    exact h2 q
  · intro sid
    unfold find_stream_properties
    rw [hstr, hk]
  · decide

theorem selPage_eq_drop_take (term : String) (p : Nat) :
    ∀ (l : List Val) (seen skip : Nat) (acc : List Val), acc.length < p →
      selPage term p l seen skip acc =
        acc ++ ((l.filter (valMatches term)).drop (skip - seen)).take (p - acc.length) := by
  intro l
  induction l with
  | nil => intro seen skip acc hacc; simp [selPage]
  | cons x xs ih =>
    intro seen skip acc hacc
    by_cases hm : valMatches term x = true
    · by_cases hs : seen < skip
      · simp only [selPage]
        rw [if_pos hm, if_pos hs, ih (seen + 1) skip acc hacc]
        have h1 : skip - seen = (skip - (seen + 1)) + 1 := by omega
        rw [List.filter_cons, if_pos hm, h1, List.drop_succ_cons]
      · simp only [selPage]
        rw [if_pos hm, if_neg hs]
        have h0 : skip - seen = 0 := by omega
        by_cases hfull : p ≤ (acc ++ [x]).length
        · have hp1 : p - acc.length = 1 := by
            simp only [List.length_append, List.length_cons, List.length_nil] at hfull
            omega
          rw [if_pos hfull, List.filter_cons, if_pos hm, h0, List.drop_zero, hp1,
            List.take_succ_cons, List.take_zero]
        · have hlt : (acc ++ [x]).length < p := by omega
          rw [if_neg hfull, ih seen skip (acc ++ [x]) hlt]
          have hp2 : p - acc.length = (p - (acc ++ [x]).length) + 1 := by
            simp only [List.length_append, List.length_cons, List.length_nil]
            simp only [List.length_append, List.length_cons, List.length_nil] at hlt
            omega
          rw [List.filter_cons, if_pos hm, h0, hp2]
          simp only [List.drop_zero, List.take_succ_cons]
          simp only [List.append_assoc, List.cons_append, List.nil_append]
    · simp only [selPage]
      rw [if_neg hm, ih seen skip acc hacc, List.filter_cons, if_neg hm]

theorem find_selections_page (mgr : StreamManager) (selected : List (String × Val))
    (term : String) (pageno p : Nat) (req : String) (curr : STree)
    (h : selDescend selected mgr.keylist mgr.basedict = .openDim req curr) (hp : 1 ≤ p) :
    find_selections mgr selected term pageno p =
      .page req (dimSorted curr).length
        (((dimMatched term curr).drop (pageno * p - p)).take p) := by
  unfold find_selections
  rw [h]
  simp only [dimSorted, dimMatched]
  have hsp := selPage_eq_drop_take term p ((childVals curr).insertionSort Val.le) 0
    (pageno * p - p) [] (by simpa using hp)
  simp only [List.nil_append, Nat.sub_zero, List.length_nil] at hsp
  rw [hsp]

theorem join_chunks {α : Type} (p : Nat) :
    ∀ (m : Nat) (l : List α), l.length ≤ m * p →
      ((List.range m).map (fun i => (l.drop (i * p)).take p)).flatten = l := by
  intro m
  induction m with
  | zero =>
    intro l hl
    have hnil : l = [] := List.length_eq_zero.mp (by omega)
    simp [hnil]
  | succ m ih =>
    intro l hl
    rw [List.range_succ_eq_map]
    simp only [List.map_cons, List.map_map, List.flatten_cons, Nat.zero_mul,
      List.drop_zero]
    have hstep : (List.range m).map ((fun i => (l.drop (i * p)).take p) ∘ Nat.succ) =
        (List.range m).map (fun i => ((l.drop p).drop (i * p)).take p) := by
      apply List.map_congr_left
      intro i _
      simp only [Function.comp_apply]
      rw [List.drop_drop, Nat.succ_mul, Nat.add_comm p (i * p)]
    rw [Nat.succ_mul] at hl
    rw [hstep, ih (l.drop p) (by simp only [List.length_drop]; omega)]
    exact List.take_append_drop p l

/-- C3 (counterexample): the claim states that maxitems equals the count of
term-filtered matches.  On an index whose open dimension holds the two
values abc and xyz, the term abc matches exactly one value, yet the page
returned by find_selections reports maxitems = 2 (the source computes
`len(result)` before applying the term filter). -/
theorem claim_C3_counterexample :
    find_selections exMgrSrc [] "abc" 1 10 = .page "source" 2 [Val.s "abc"] ∧
    selDescend [] exMgrSrc.keylist exMgrSrc.basedict = .openDim "source" exMgrSrc.basedict ∧
    (dimMatched "abc" exMgrSrc.basedict).length = 1 ∧
    (2 : Nat) ≠ 1 :=
  ⟨by decide, rfl, by decide, by decide⟩

/-- C3 (amended): whenever a listSelection call (find_selections) reaches an
open dimension, the total count returned alongside the page (maxitems)
equals the total number of sibling values at that open dimension, computed
before the term filter is applied (not the count of term-filtered
matches). -/
theorem claim_C3_maxitems_unfiltered (mgr : StreamManager)
    (selected : List (String × Val)) (term : String) (pageno pagesize : Nat)
    (req : String) (curr : STree)
    (h : selDescend selected mgr.keylist mgr.basedict = .openDim req curr) :
    (find_selections mgr selected term pageno pagesize).maxitems =
      (childVals curr).length := by
  unfold find_selections
  rw [h]
  simp only [SelOutcome.maxitems]
  exact (List.perm_insertionSort Val.le (childVals curr)).length_eq

/-- Witness for the amended C3 at a concrete index. -/
theorem claim_C3_maxitems_unfiltered_witness :
    (find_selections exMgrSrc [] "abc" 1 10).maxitems =
      (childVals exMgrSrc.basedict).length :=
  claim_C3_maxitems_unfiltered exMgrSrc [] "abc" 1 10 "source" exMgrSrc.basedict rfl

/-- C6: on any index state whose find_selections descent reaches an open
dimension of distinct string values, for any term and page size p at least
1: page 1 holds min(k, p) items where k counts the term-matching values;
every returned item of any page matches the term; concatenating pages
1..m (m pages sufficing to cover all matches) reproduces the sorted
term-filtered value list, which is a permutation of the term-matching
sibling values, duplicate-free and sorted. -/
theorem claim_C6_pagination (mgr : StreamManager) (selected : List (String × Val))
    (term : String) (p : Nat) (hp : 1 ≤ p) (req : String) (curr : STree)
    (h : selDescend selected mgr.keylist mgr.basedict = .openDim req curr)
    (hstr : ∀ v ∈ childVals curr, v.isStr = true)
    (hnd : (childVals curr).Nodup) :
    ((find_selections mgr selected term 1 p).items).length =
      min (dimMatched term curr).length p ∧
    (∀ pageno, ∀ v ∈ (find_selections mgr selected term pageno p).items,
      valMatches term v = true) ∧
    (∀ m, (dimMatched term curr).length ≤ m * p →
      ((List.range m).map
        (fun i => (find_selections mgr selected term (i + 1) p).items)).flatten =
        dimMatched term curr) ∧
    (dimMatched term curr).Perm ((childVals curr).filter (valMatches term)) ∧
    (dimMatched term curr).Nodup ∧
    (dimMatched term curr).Sorted Val.le := by
  have hitems : ∀ pageno, (find_selections mgr selected term pageno p).items =
      ((dimMatched term curr).drop (pageno * p - p)).take p := by
    intro pageno
    rw [find_selections_page mgr selected term pageno p req curr h hp]
    rfl
  have hperm : (dimMatched term curr).Perm ((childVals curr).filter (valMatches term)) :=
    (List.perm_insertionSort Val.le (childVals curr)).filter _
  refine ⟨?_, ?_, ?_, hperm, ?_, ?_⟩
  · rw [hitems 1]
    simp only [Nat.one_mul, Nat.sub_self, List.drop_zero, List.length_take]
    exact Nat.min_comm _ _
  · intro pageno v hv
    rw [hitems pageno] at hv
    have hv2 : v ∈ dimMatched term curr :=
      List.mem_of_mem_drop (List.mem_of_mem_take hv)
    exact (List.mem_filter.mp hv2).2
  · intro m hm
    have hrw : (List.range m).map
        (fun i => (find_selections mgr selected term (i + 1) p).items) =
        (List.range m).map
          (fun i => ((dimMatched term curr).drop (i * p)).take p) := by
      apply List.map_congr_left
      intro i _
      rw [hitems (i + 1)]
      congr 2
      rw [Nat.succ_mul]
      omega
    rw [hrw]
    exact join_chunks p m (dimMatched term curr) hm
  · exact hperm.nodup_iff.mpr (hnd.filter _)
  · exact List.Pairwise.sublist (List.filter_sublist _)
      (List.sorted_insertionSort Val.le (childVals curr))

/-- Witness for C6 at a concrete index, term and page size. -/
theorem claim_C6_pagination_witness :
    ((find_selections exMgrSrc [] "b" 1 1).items).length =
      min (dimMatched "b" exMgrSrc.basedict).length 1 :=
  (claim_C6_pagination exMgrSrc [] "b" 1 (by decide) "source" exMgrSrc.basedict rfl
    (by decide) (by decide)).1

/-- C4 (counterexample): the claim attributes the true/false-to-boolean
coercion to find_streams.  On an index whose family level holds a boolean
True branch (containing stream 1) and no branch for the exact string true,
find_streams with the string true returns the empty list instead of
coercing and matching the boolean branch. -/
theorem claim_C4_counterexample :
    SEntry.bare 1 ∈ find_streams exMgrFam [("family", Val.b true)] ∧
    childVals exMgrFam.basedict = [Val.b true] ∧
    find_streams exMgrFam [("family", Val.s "true")] = [] :=
  ⟨by decide, by decide, by decide⟩

/-- C4 (amended): the exact strings true/false are coerced to booleans, when
the string itself is not a branch at the current level, by the descent of
find_selections (listSelection), not by find_streams; find_streams matches
each key present in its properties by exact case-sensitive equality (an
absent branch yields the empty result, with no coercion) and treats each
absent key as a wildcard traversing every branch of the level. -/
theorem claim_C4_coercion_in_find_selections :
    (∀ (selected : List (String × Val)) (k : String) (rest : List String)
        (cs : List (Val × STree)),
        plookup selected k = some (Val.s "true") →
        lookupVal cs (Val.s "true") = none →
        selDescend selected (k :: rest) (.node cs) =
          (match lookupVal cs (Val.b true) with
           | none => DescendRes.invalid
           | some sub => selDescend selected rest sub)) ∧
    (∀ (selected : List (String × Val)) (k : String) (rest : List String)
        (cs : List (Val × STree)),
        plookup selected k = some (Val.s "false") →
        lookupVal cs (Val.s "false") = none →
        selDescend selected (k :: rest) (.node cs) =
          (match lookupVal cs (Val.b false) with
           | none => DescendRes.invalid
           | some sub => selDescend selected rest sub)) ∧
    (∀ (props : List (String × Val)) (k : String) (rest : List String)
        (cs : List (Val × STree)) (v : Val),
        plookup props k = some v → lookupVal cs v = none →
        findAux props (k :: rest) (.node cs) = []) ∧
    (∀ (props : List (String × Val)) (k : String) (rest : List String)
        (cs : List (Val × STree)),
        plookup props k = none →
        findAux props (k :: rest) (.node cs) =
          (cs.map (fun c => findAux props rest c.2)).flatten) := by
  refine ⟨?_, ?_, ?_, ?_⟩
  · intro selected k rest cs hsel hlook
    simp [selDescend, hsel, hlook]
  · intro selected k rest cs hsel hlook
    simp [selDescend, hsel, hlook]
  · intro props k rest cs v hp hlook
    simp [findAux, hp, hlook]
  · intro props k rest cs hp
    exact findAux_wild_node props k rest cs hp

/-- Witness for the amended C4 at the concrete boolean-family level. -/
theorem claim_C4_coercion_in_find_selections_witness :
    selDescend [("family", Val.s "true")] ["family", "x"]
      (.node [(Val.b true, STree.node [(Val.s "v", STree.leaf [SEntry.bare 1])])]) =
      (match lookupVal [(Val.b true, STree.node [(Val.s "v", STree.leaf [SEntry.bare 1])])]
          (Val.b true) with
       | none => DescendRes.invalid
       | some sub => selDescend [("family", Val.s "true")] ["x"] sub) :=
  claim_C4_coercion_in_find_selections.1 [("family", Val.s "true")] "family" ["x"]
    [(Val.b true, STree.node [(Val.s "v", STree.leaf [SEntry.bare 1])])] rfl rfl

/-- Witness for C9 at a concrete failed insertion (schema key b missing). -/
theorem claim_C9_failed_insert_partial_mutation_witness :
    (add_stream (StreamManager.mk0 ["a", "b"]) 1 none [("a", Val.s "x")]).1 = none ∧
    (add_stream (StreamManager.mk0 ["a", "b"]) 1 none [("a", Val.s "x")]).2.streams =
      (StreamManager.mk0 ["a", "b"]).streams :=
  ⟨(claim_C9_failed_insert_partial_mutation (StreamManager.mk0 ["a", "b"]) 1 none
      [("a", Val.s "x")] "b" (by decide) rfl).1,
   (claim_C9_failed_insert_partial_mutation (StreamManager.mk0 ["a", "b"]) 1 none
      [("a", Val.s "x")] "b" (by decide) rfl).2.1⟩

/-- C1 (code bug): the first conjunct evaluates request_history on a trace
in which the single requested label first receives a non-terminal
QueryCancelled fragment and then its terminal History fragment: the source
reads the missing freq key of the label's entry and raises an uncaught
KeyError (the exc outcome, with the session left open) instead of
completing with one entry as the claim requires.  The second conjunct shows
the claimed behaviour on the adjacent trace in which the label's only
fragment is a terminal QueryCancelled: the call completes with one entry
holding no data, the timed-out range, and a frequency. -/
theorem claim_C1_keyerror_on_cancel_then_history :
    request_history ⟨false⟩ true 1 ["a"] 300 true
      [NMsg.queryCancelled 1 ["a"] 0 10 true, NMsg.history 1 "a" (some 60) [] false] =
      (.exc, ⟨true⟩) ∧
    request_history ⟨false⟩ true 1 ["a"] 300 true
      [NMsg.queryCancelled 1 ["a"] 0 10 false] =
      (.ok [("a", { hdata := [], timedout := [(0, 10)], freq := some 60 })], ⟨false⟩) :=
  ⟨by decide, by decide⟩

theorem rsLoop_client_closed (reqtype : ReqType) (colid : Nat) :
    ∀ (msgs : List NMsg) (streams : List Nat) (c : Conn),
      (rsLoop reqtype colid msgs streams c).2.client = false := by
  intro msgs
  induction msgs with
  | nil => intro streams c; rfl
  | cons m rest ih =>
    intro streams c
    cases m <;> simp only [rsLoop] <;>
      first
        | rfl
        | (split_ifs <;> first | rfl | exact ih _ _)

theorem parseLoop_exc_or_closed (colid : Nat) (labels : List String) :
    ∀ (msgs : List NMsg) (data : List (String × HEntry)) (count : Nat) (c : Conn),
      (parseLoop colid labels msgs data count c).1 = .exc ∨
      (parseLoop colid labels msgs data count c).2.client = false := by
  intro msgs
  induction msgs with
  | nil =>
    intro data count c
    by_cases h : labels.length ≤ count <;> simp [parseLoop, h, disconnect]
  | cons m rest ih =>
    intro data count c
    by_cases h : labels.length ≤ count
    · right; simp [parseLoop, h, disconnect]
    · cases m with
      | streamsMsg col ss more =>
        simp only [parseLoop, if_neg h]
        exact ih _ _ _
      | queryCancelled col qlabs qs qe more =>
        simp only [parseLoop, if_neg h]
        by_cases hc : col = colid
        · simp only [if_pos hc]; exact ih _ _ _
        · simp only [if_neg hc]; exact ih _ _ _
      | history col label bins hdata more =>
        simp only [parseLoop, if_neg h]
        by_cases hc : col = colid
        · simp only [if_pos hc]
          by_cases hlab : label ∈ labels
          · simp only [if_pos hlab]
            cases hl : hlookup data label with
            | none => simp only [hl]; exact ih _ _ _
            | some e0 =>
              cases hf : e0.freq with
              | none => left; simp [hl, hf]
              | some f => simp only [hl, hf]; exact ih _ _ _
          · simp only [if_neg hlab]; exact ih _ _ _
        · simp only [if_neg hc]; exact ih _ _ _
      | collectionsMsg cols =>
        simp only [parseLoop, if_neg h]
        exact ih _ _ _
      | activeStreamsMsg col ss more =>
        simp only [parseLoop, if_neg h]
        exact ih _ _ _
      | other tag =>
        simp only [parseLoop, if_neg h]
        exact ih _ _ _

/-- C8: each of the three protocol operations closes the session on every
return path, whether it returns a result or an error, so the client field
is None after the call and no session is reused across two requests.  For
request_history the guarantee covers every returning path; the only
non-returning path is the uncaught KeyError exception of C1, on which the
source escapes without disconnecting. -/
theorem claim_C8_session_closed_after_request (c : Conn) (connectOk : Bool)
    (msgs : List NMsg) (reqtype : ReqType) (colid : Nat) (labels : List String)
    (binsize : Int) (sendOk : Bool) :
    (request_collections c connectOk msgs).2.client = false ∧
    (request_streams c connectOk reqtype colid msgs).2.client = false ∧
    ((request_history c connectOk colid labels binsize sendOk msgs).1 ≠ .exc →
      (request_history c connectOk colid labels binsize sendOk msgs).2.client = false) := by
  refine ⟨?_, ?_, ?_⟩
  · unfold request_collections
    cases msgs with
    | nil =>
      by_cases hcl : (connect c connectOk).client = false <;> simp [hcl, disconnect]
    | cons m rest =>
      by_cases hcl : (connect c connectOk).client = false <;>
        cases m <;> simp [hcl, disconnect]
  · unfold request_streams
    by_cases hcl : (connect c connectOk).client = false
    · simp [hcl]
    · simp only [if_neg hcl]
      exact rsLoop_client_closed reqtype colid msgs [] _
  · intro hne
    unfold request_history at hne ⊢
    by_cases hcl : (connect c connectOk).client = false
    · simp [hcl]
    · by_cases hsend : sendOk = false
      · simp [hcl, hsend, disconnect]
      · simp only [if_neg hcl, if_neg hsend] at hne ⊢
        rcases parseLoop_exc_or_closed colid labels msgs [] 0 (connect c connectOk)
          with h | h
        · exact absurd h hne
        · exact h

/-- Witness for C8 at concrete calls (the history call completes without
the exception). -/
theorem claim_C8_session_closed_after_request_witness :
    (request_collections ⟨false⟩ true [NMsg.collectionsMsg [7]]).2.client = false ∧
    (request_streams ⟨false⟩ true ReqType.streams 1
      [NMsg.streamsMsg 1 [5] false]).2.client = false ∧
    (request_history ⟨false⟩ true 1 ["a"] 300 true
      [NMsg.history 1 "a" (some 60) [4] false]).2.client = false := by
  obtain ⟨h1, h2, h3⟩ := claim_C8_session_closed_after_request ⟨false⟩ true
    [NMsg.collectionsMsg [7]] ReqType.streams 1 ["a"] 300 true
  refine ⟨h1, ?_, ?_⟩
  · exact (claim_C8_session_closed_after_request ⟨false⟩ true
      [NMsg.streamsMsg 1 [5] false] ReqType.streams 1 ["a"] 300 true).2.1
  · exact (claim_C8_session_closed_after_request ⟨false⟩ true
      [NMsg.history 1 "a" (some 60) [4] false] ReqType.streams 1 ["a"] 300 true).2.2
      (by decide)

theorem rsLoop_cancel_aborts (reqtype : ReqType) (colid : Nat) (msgs2 : List NMsg)
    (co : Nat) (qlabs : List String) (qs qe : Nat) (mo : Bool) :
    ∀ (msgs1 : List NMsg) (streams : List Nat) (c : Conn),
      (∀ m ∈ msgs1, streamBenign reqtype colid m = true) →
      rsLoop reqtype colid (msgs1 ++ .queryCancelled co qlabs qs qe mo :: msgs2)
        streams c = (none, disconnect c) := by
  intro msgs1
  induction msgs1 with
  | nil => intro streams c _; rfl
  | cons m rest ih =>
    intro streams c hben
    have hm := hben m (List.mem_cons_self m rest)
    have hrest : ∀ x ∈ rest, streamBenign reqtype colid x = true :=
      fun x hx => hben x (List.mem_cons_of_mem m hx)
    cases reqtype with
    | streams =>
      cases m with
      | streamsMsg col ss more =>
        have hm2 : ((col != colid) || more) = true := by
          simpa [streamBenign] using hm
        by_cases hcol : col = colid
        · subst hcol
          have hmore : more = true := by simpa using hm2
          subst hmore
          simp only [List.cons_append]
          simp [rsLoop]
          exact ih _ _ hrest
        · simp only [List.cons_append]
          simp [rsLoop, hcol]
          exact ih _ _ hrest
      | activeStreamsMsg col ss more => simp [streamBenign] at hm
      | collectionsMsg cols => simp [streamBenign] at hm
      | history col label bins hdata more => simp [streamBenign] at hm
      | queryCancelled a b d e f => simp [streamBenign] at hm
      | other tag => simp [streamBenign] at hm
    | activeStreams =>
      cases m with
      | activeStreamsMsg col ss more =>
        have hm2 : ((col != colid) || more) = true := by
          simpa [streamBenign] using hm
        by_cases hcol : col = colid
        · subst hcol
          have hmore : more = true := by simpa using hm2
          subst hmore
          simp only [List.cons_append]
          simp [rsLoop]
          exact ih _ _ hrest
        · simp only [List.cons_append]
          simp [rsLoop, hcol]
          exact ih _ _ hrest
      | streamsMsg col ss more => simp [streamBenign] at hm
      | collectionsMsg cols => simp [streamBenign] at hm
      | history col label bins hdata more => simp [streamBenign] at hm
      | queryCancelled a b d e f => simp [streamBenign] at hm
      | other tag => simp [streamBenign] at hm

/-- C10: a QueryCancelled message received at any point during a streams
request aborts the whole call: after any prefix of benign batches the
result is None (discarding the batches already accumulated) and the
session is closed; request_collections likewise returns None when its
response is a QueryCancelled message. -/
theorem claim_C10_query_cancelled_aborts_streams (c : Conn) (connectOk : Bool)
    (reqtype : ReqType) (colid : Nat) (msgs1 msgs2 : List NMsg) (co : Nat)
    (qlabs : List String) (qs qe : Nat) (mo : Bool)
    (hben : ∀ m ∈ msgs1, streamBenign reqtype colid m = true) :
    (request_streams c connectOk reqtype colid
      (msgs1 ++ .queryCancelled co qlabs qs qe mo :: msgs2)).1 = none ∧
    (request_streams c connectOk reqtype colid
      (msgs1 ++ .queryCancelled co qlabs qs qe mo :: msgs2)).2.client = false ∧
    (request_collections c connectOk (.queryCancelled co qlabs qs qe mo :: msgs2)).1 =
      none := by
  refine ⟨?_, ?_, ?_⟩
  · unfold request_streams
    by_cases hcl : (connect c connectOk).client = false
    · simp [hcl]
    · simp only [if_neg hcl]
      rw [rsLoop_cancel_aborts reqtype colid msgs2 co qlabs qs qe mo msgs1 [] _ hben]
  · unfold request_streams
    by_cases hcl : (connect c connectOk).client = false
    · simp [hcl]
    · simp only [if_neg hcl]
      rw [rsLoop_cancel_aborts reqtype colid msgs2 co qlabs qs qe mo msgs1 [] _ hben]
      rfl
  · unfold request_collections
    by_cases hcl : (connect c connectOk).client = false
    · simp [hcl]
    · simp [hcl]

/-- Witness for C10 after one benign batch. -/
theorem claim_C10_query_cancelled_aborts_streams_witness :
    (request_streams ⟨false⟩ true ReqType.streams 1
      ([NMsg.streamsMsg 1 [5] true] ++
        NMsg.queryCancelled 1 [] 0 0 false :: [NMsg.streamsMsg 1 [6] false])).1 =
      none :=
  (claim_C10_query_cancelled_aborts_streams ⟨false⟩ true ReqType.streams 1
    [NMsg.streamsMsg 1 [5] true] [NMsg.streamsMsg 1 [6] false] 1 [] 0 0 false
    (by decide)).1

theorem ghdLoop_fail (getcol : String → Option Collection) (raw : Bool) :
    ∀ (groups : List (String × List (Nat × String)))
      (acc : List (String × RData) × List (Nat × List (String × String))),
      (∃ cv ∈ groups, getcol cv.1 = none ∨
        ∃ col, getcol cv.1 = some col ∧
          col.getHistory (collectLabels col cv.2) = none) →
      ghdLoop getcol raw groups acc = none := by
  intro groups
  induction groups with
  | nil => intro acc h; simp at h
  | cons g rest ih =>
    obtain ⟨cn, vgs⟩ := g
    intro acc h
    cases hg : getcol cn with
    | none => simp [ghdLoop, hg]
    | some col =>
      cases hh : col.getHistory (collectLabels col vgs) with
      | none => simp [ghdLoop, hg, hh]
      | some colhist =>
        simp only [ghdLoop, hg, hh]
        apply ih
        rcases h with ⟨cv, hmem, hfail⟩
        rcases List.mem_cons.mp hmem with heq | hmemr
        · exfalso
          subst heq
          rcases hfail with hfail | ⟨col2, hcol2, hh2⟩
          · rw [hg] at hfail; cases hfail
          · rw [hg] at hcol2
            obtain rfl : col = col2 := by injection hcol2
            rw [hh] at hh2; cases hh2
        · exact ⟨cv, hmemr, hfail⟩

theorem grdLoop_getcol_fail (getcol : String → Option Collection) :
    ∀ (groups : List (String × List (Nat × String)))
      (acc : List (String × RData) × List String),
      (∃ cv ∈ groups, getcol cv.1 = none) →
      grdLoop getcol groups acc = none := by
  intro groups
  induction groups with
  | nil => intro acc h; simp at h
  | cons g rest ih =>
    obtain ⟨cn, vgs⟩ := g
    intro acc h
    cases hg : getcol cn with
    | none => simp [grdLoop, hg]
    | some col =>
      have hr : ∃ cv ∈ rest, getcol cv.1 = none := by
        rcases h with ⟨cv, hmem, hfail⟩
        rcases List.mem_cons.mp hmem with heq | hmemr
        · exfalso; subst heq; rw [hg] at hfail; cases hfail
        · exact ⟨cv, hmemr, hfail⟩
      cases hrec : col.getRecent (collectLabels col vgs) with
      | none => simp only [grdLoop, hg, hrec]; exact ih _ hr
      | some r => simp only [grdLoop, hg, hrec]; exact ih _ hr

theorem grdLoop_total (getcol : String → Option Collection) :
    ∀ (groups : List (String × List (Nat × String)))
      (acc : List (String × RData) × List String),
      (∀ cv ∈ groups, (getcol cv.1).isSome = true) →
      (grdLoop getcol groups acc).isSome = true := by
  intro groups
  induction groups with
  | nil => intro acc _; rfl
  | cons g rest ih =>
    obtain ⟨cn, vgs⟩ := g
    intro acc h
    have hg0 := h (cn, vgs) (List.mem_cons_self _ _)
    cases hg : getcol cn with
    | none => rw [hg] at hg0; cases hg0
    | some col =>
      have hr : ∀ cv ∈ rest, (getcol cv.1).isSome = true :=
        fun cv hcv => h cv (List.mem_cons_of_mem _ hcv)
      cases hrec : col.getRecent (collectLabels col vgs) with
      | none => simp only [grdLoop, hg, hrec]; exact ih _ hr
      | some r => simp only [grdLoop, hg, hrec]; exact ih _ hr

/-- C2 (counterexample): the claim states that a kind failing its protocol
request makes the whole get_recent_data call return None.  With a view of
two kinds where the collection named bad fails its get_collection_recent
call and the collection named good succeeds, get_recent_data returns the
merged result of the good kind alone instead of None (the source skips a
kind whose result is None and keeps going). -/
theorem claim_C2_counterexample :
    exGetcol "bad" = some exColBad ∧
    exColBad.getRecent (collectLabels exColBad [(1, "d")]) = none ∧
    get_recent_data (some [("bad", [(1, "d")]), ("good", [(2, "d")])]) exGetcol =
      some ([("l", 3)], []) :=
  ⟨rfl, rfl, rfl⟩

/-- C2 (amended): in get_historic_data a kind whose collection module cannot
be constructed or whose protocol request fails (get_collection_history is
None) aborts the entire call with None; in get_recent_data only a missing
collection module aborts — a kind whose protocol request fails is silently
skipped and the call still returns a (possibly partial) result; in both, a
group whose label resolution fails contributes no labels and is skipped
rather than aborting. -/
theorem claim_C2_kind_failure_handling :
    (∀ (groups : List (String × List (Nat × String)))
        (getcol : String → Option Collection) (binsize : Option Int)
        (colname : String) (vgs : List (Nat × String)),
        (colname, vgs) ∈ groups →
        (getcol colname = none ∨
          ∃ col, getcol colname = some col ∧
            col.getHistory (collectLabels col vgs) = none) →
        get_historic_data (some groups) getcol binsize = none) ∧
    (∀ (groups : List (String × List (Nat × String)))
        (getcol : String → Option Collection) (colname : String)
        (vgs : List (Nat × String)),
        (colname, vgs) ∈ groups → getcol colname = none →
        get_recent_data (some groups) getcol = none) ∧
    (∀ (groups : List (String × List (Nat × String)))
        (getcol : String → Option Collection),
        (∀ cv ∈ groups, (getcol cv.1).isSome = true) →
        (get_recent_data (some groups) getcol).isSome = true) ∧
    (∀ (col : Collection) (gid : Nat) (descr : String)
        (pre post : List (Nat × String)),
        col.groupToLabels gid descr = none →
        collectLabels col (pre ++ (gid, descr) :: post) =
          collectLabels col (pre ++ post)) := by
  refine ⟨?_, ?_, ?_, ?_⟩
  · intro groups getcol binsize colname vgs hmem hfail
    have hg := ghdLoop_fail getcol
      (match binsize with | some b => decide (b < 0) | none => false) groups ([], [])
      ⟨(colname, vgs), hmem, hfail⟩
    simp [get_historic_data, hg]
  · intro groups getcol colname vgs hmem hfail
    unfold get_recent_data
    exact grdLoop_getcol_fail getcol groups ([], []) ⟨(colname, vgs), hmem, hfail⟩
  · intro groups getcol h
    unfold get_recent_data
    exact grdLoop_total getcol groups ([], []) h
  · intro col gid descr pre post hfail
    induction pre with
    | nil => simp [collectLabels, hfail]
    | cons g pre2 ih =>
      obtain ⟨gid2, descr2⟩ := g
      simp only [List.cons_append, collectLabels]
      cases hg2 : col.groupToLabels gid2 descr2 <;>
        simp only [List.append_eq, ih]

/-- Witness for the amended C2: the failing history kind aborts the whole
historic call, and the same two-kind view keeps get_recent_data total. -/
theorem claim_C2_kind_failure_handling_witness :
    get_historic_data (some [("bad", [(1, "d")]), ("good", [(2, "d")])]) exGetcol
      none = none ∧
    (get_recent_data (some [("good", [(2, "d")])]) exGetcol).isSome = true :=
  ⟨claim_C2_kind_failure_handling.1 [("bad", [(1, "d")]), ("good", [(2, "d")])]
      exGetcol none "bad" [(1, "d")] (List.mem_cons_self _ _)
      (Or.inr ⟨exColBad, rfl, rfl⟩),
   claim_C2_kind_failure_handling.2.2.1 [("good", [(2, "d")])] exGetcol
      (by intro cv hcv; simp at hcv; subst hcv; rfl)⟩

end Ampy
